import Mathlib

/-!
Verification development for the mailtri-router core: a shallow embedding of
the email parser (src/email-parser.ts), the attachment processor
(src/attachment-processor.ts) and the parsing-error handler
(parsing-error-handler.ts), together with theorems settling the frozen
claims about them.

Modelling conventions:
* JavaScript strings are modelled as `List Char` (named `JStr`);
  Node `Buffer` values are modelled as `List Nat` (one entry per byte).
* JavaScript exceptions are modelled with `Except JStr`; a function that the
  source code guarantees cannot throw is a plain total function.
* `Date` values are modelled symbolically by `JSDate`: a date is either
  constructed from a numeric timestamp or parsed from a string; the JS
  date-parsing algorithm itself is left uninterpreted.
* Sources of nondeterminism (`Date.now()`, `Math.random()`) are passed in as
  explicit parameters (`now : Nat`, `rand : JStr`).
-/

/-- JavaScript string, modelled as its list of characters. -/
abbrev JStr := List Char

/-- Convenience conversion from a Lean string literal to a `JStr`. -/
def jstr (s : String) : JStr := s.data

/-- Whitespace test used by the models of JS `trim()` and `\s`.  The JS
definitions also admit some rarer Unicode space characters; every character
appearing in the claims is covered by this set. -/
def wsChar (c : Char) : Bool :=
  c = ' ' || c = '\t' || c = '\n' || c = '\r' || c = Char.ofNat 11 || c = Char.ofNat 12

/-- Model of JS `String.prototype.trim()` on character lists. -/
def trimList (l : JStr) : JStr :=
  ((l.dropWhile wsChar).reverse.dropWhile wsChar).reverse

/-- Model of JS `split(sep)` for a one-character separator: `splitChar sep l`
splits `l` at every occurrence of `sep`.  `splitChar sep [] = [[]]`, matching
`"".split(sep) = [""]`. -/
def splitChar (sep : Char) : JStr → List JStr
  | [] => [[]]
  | c :: rest =>
    match splitChar sep rest with
    | [] => [[]]
    | h :: t => if c = sep then [] :: h :: t else (c :: h) :: t

/-- ASCII lowercasing, the model of JS `toLowerCase()` (the claims only
involve ASCII text). -/
def jsLower (l : JStr) : JStr := l.map Char.toLower

/-- ASCII uppercasing, the model of JS `toUpperCase()`. -/
def jsUpper (l : JStr) : JStr := l.map Char.toUpper

/-- Model of JS `replace(/\r\n/g, '\n')`: every (non-overlapping,
left-to-right) occurrence of CR LF becomes a single LF. -/
def replaceCRLF : JStr → JStr
  | [] => []
  | [c] => [c]
  | c :: d :: rest =>
    if c = '\r' && d = '\n' then '\n' :: replaceCRLF rest
    else c :: replaceCRLF (d :: rest)

/-- Model of JS `replace(/\r/g, '\n')`. -/
def replaceCR : JStr → JStr
  | [] => []
  | c :: rest => (if c = '\r' then '\n' else c) :: replaceCR rest

/-- Model of JS `replace(/\n{3,}/g, '\n\n')`: each maximal run of three or
more newlines collapses to exactly two.  The equation deletes the leading
newline of any run of at least three, which yields the same result as the
single-pass greedy regex replacement. -/
def collapseNewlines : JStr → JStr
  | c :: d :: e :: rest =>
    if c = '\n' && d = '\n' && e = '\n' then collapseNewlines (d :: e :: rest)
    else c :: collapseNewlines (d :: e :: rest)
  | l => l

/-- Checks that three consecutive newline characters never occur. -/
def noTripleNewline : JStr → Bool
  | c :: d :: e :: rest =>
    !(c = '\n' && d = '\n' && e = '\n') && noTripleNewline (d :: e :: rest)
  | _ => true

/-- Model of a JS object used as a string-keyed record: inserting re-assigns
in place when the key exists, otherwise appends (JS objects keep insertion
order). -/
def recordSet (m : List (JStr × JStr)) (k v : JStr) : List (JStr × JStr) :=
  if m.any (fun p => p.1 = k) then
    m.map (fun p => if p.1 = k then (k, v) else p)
  else m ++ [(k, v)]

/-- Lookup in the record model. -/
def recordGet (m : List (JStr × JStr)) (k : JStr) : Option JStr :=
  (m.find? (fun p => p.1 = k)).map (fun p => p.2)

/-- Model of Node `Buffer.prototype.toString('utf8')`.  Faithful on ASCII
bytes; a byte outside the ASCII range stands in for the start of a multi-byte
or invalid sequence and is rendered as U+FFFD (every buffer a claim touches
is pure ASCII). -/
def bufToJStr (b : List Nat) : JStr :=
  b.map (fun n => if n < 128 then Char.ofNat n else Char.ofNat 0xFFFD)

/-- Symbolic model of a JS `Date` value. -/
inductive JSDate where
  | fromTs (ms : Nat)
  | fromStr (s : JStr)
  deriving DecidableEq, Repr

/-- Abstract rendering of `Date.prototype.toISOString()`; no claim depends on
the exact text, only on the value being a string. -/
def jsDateToISO : JSDate → JStr
  | .fromTs n => jstr "ts:" ++ (Nat.repr n).data
  | .fromStr s => jstr "str:" ++ s

section DataModel

/-- The `MailparserAddress` record of src/types.ts. -/
structure MailAddr where
  address : JStr
  name : Option JStr := none
  original : Option JStr := none
  text : Option JStr := none
  deriving DecidableEq, Repr

/-- The `EmailAddress` record of src/types.ts. -/
structure EmailAddress where
  address : JStr
  name : JStr
  original : JStr
  deriving DecidableEq, Repr

/-- One mailparser `AddressObject` (only its `value` list is consumed). -/
structure AddrObj where
  value : Option (List MailAddr) := none
  deriving DecidableEq, Repr

/-- The `AddressObject | AddressObject[] | undefined` input of
`extractAddressValue`. -/
inductive AddrField where
  | undef
  | one (o : AddrObj)
  | many (l : List AddrObj)
  deriving DecidableEq, Repr

/-- Header values handed over by mailparser: a string, an array of strings,
or a `Date` (the branches `normalizeHeaders` distinguishes). -/
inductive HeaderVal where
  | str (v : JStr)
  | arr (vs : List JStr)
  | dateV (d : JSDate)
  deriving DecidableEq, Repr

/-- A raw attachment part as delivered by mailparser. -/
structure RawAttachment where
  filename : Option JStr := none
  contentType : Option JStr := none
  size : Option Nat := none
  content : List Nat := []
  contentDisposition : Option JStr := none
  cid : Option JStr := none
  deriving DecidableEq, Repr

/-- The decomposition result produced by the injected MIME capability
(mailparser's `simpleParser`), as consumed by `parseEmail`. -/
structure ParsedMail where
  «from» : AddrField := .undef
  «to» : AddrField := .undef
  cc : AddrField := .undef
  bcc : AddrField := .undef
  subject : Option JStr := none
  text : Option JStr := none
  html : Option JStr := none
  headers : List (JStr × HeaderVal) := []
  date : Option JSDate := none
  attachments : List RawAttachment := []
  deriving DecidableEq, Repr

/-- The `Attachment` record of src/types.ts. -/
structure Attachment where
  filename : JStr
  contentType : JStr
  size : Nat
  content : List Nat
  cid : Option JStr := none
  isInline : Bool := false
  deriving DecidableEq, Repr

/-- The `body` field of `ParsedEmail`. -/
structure BodyRec where
  text : Option JStr := none
  html : Option JStr := none
  normalized : JStr
  deriving DecidableEq, Repr

/-- The `ParsedEmail` record of src/types.ts.  `cc`/`bcc` are optional in the
TypeScript interface and are left out (`none`) by the error-recovery path. -/
structure ParsedEmail where
  messageId : JStr
  «from» : EmailAddress
  «to» : List EmailAddress
  cc : Option (List EmailAddress) := none
  bcc : Option (List EmailAddress) := none
  subject : JStr
  body : BodyRec
  attachments : List Attachment
  headers : List (JStr × JStr)
  date : JSDate
  size : Nat
  deriving DecidableEq, Repr

/-- The `CalendarEventMetadata` record of src/types.ts. -/
structure ICSEvent where
  summary : Option JStr := none
  start : Option JStr := none
  «end» : Option JStr := none
  location : Option JStr := none
  description : Option JStr := none
  deriving DecidableEq, Repr

/-- The metadata attached to a processed attachment: one of the typed
metadata records of src/types.ts, or the empty record `{}`. -/
inductive AttachMeta where
  | empty
  | calendar (events : List ICSEvent)
  | image (width height : Nat) (format : JStr) (size : Nat)
  | document (type : JStr) (pages : Nat) (author title : JStr) (size : Nat)
  | archive (fileCount compressedSize uncompressedSize : Nat) (format : JStr)
  deriving DecidableEq, Repr

/-- The `ProcessedAttachment` record of src/types.ts. -/
structure ProcessedAttachment extends Attachment where
  processed : Bool
  metadata : AttachMeta
  error : Option JStr := none
  deriving DecidableEq, Repr

end DataModel

namespace EmailParser

/-! Embedding of src/email-parser.ts (class `EmailParser`).  Structural MIME
decomposition is the injected external collaborator (`simpleParser`); the
embedding therefore takes its result, a `ParsedMail`, as input, together with
the raw input length and the ambient `Date.now()` / `Math.random()` values. -/

/-- Embeds `extractAddressValue` (src/email-parser.ts:67-84). -/
def extractAddressValue : AddrField → Option (List MailAddr)
  | .undef => none
  | .many l =>
    -- `if (value) result.push(...value)`: a defined array is always truthy.
    let r := (l.map (fun o => o.value.getD [])).flatten
    if r = [] then none else some r
  | .one o => o.value

/-- Embeds `normalizeEmailAddress` (src/email-parser.ts:96-115).  The input is
a possibly-absent `Partial<MailparserAddress>` (the call site passes `{}` when
no address is available); `none` models both `undefined` and `{}`. -/
def normalizeEmailAddress (a : Option MailAddr) : EmailAddress :=
  match a with
  | none => { address := [], name := [], original := [] }
  | some ad =>
    if ad.address = [] then { address := [], name := [], original := [] }
    else
      -- JS `(typeof x === 'string' && x) || y` keeps x only when nonempty.
      let nameFallback : JStr :=
        match ad.name with
        | some n => if n = [] then ad.address else n ++ jstr " <" ++ ad.address ++ jstr ">"
        | none => ad.address
      let original : JStr :=
        match ad.original with
        | some o =>
          if o = [] then
            match ad.text with
            | some t => if t = [] then nameFallback else t
            | none => nameFallback
          else o
        | none =>
          match ad.text with
          | some t => if t = [] then nameFallback else t
          | none => nameFallback
      { address := jsLower ad.address
        name := ad.name.getD []
        original := original }

/-- Embeds `normalizeEmailAddresses` (src/email-parser.ts:117-123). -/
def normalizeEmailAddresses (l : List MailAddr) : List EmailAddress :=
  l.map (fun ad => normalizeEmailAddress (some ad))

/-- Embeds `extractMessageId` (src/email-parser.ts:86-94).  The `message-id`
header is returned verbatim when present as a nonempty string; otherwise an
id is synthesized from the timestamp and the random suffix. -/
def extractMessageId (headers : List (JStr × HeaderVal)) (now : Nat) (rand : JStr) : JStr :=
  match (headers.find? (fun p => p.1 = jstr "message-id")).map (fun p => p.2) with
  | some (HeaderVal.str v) => if v = [] then jstr "msg-" ++ (Nat.repr now).data ++ jstr "-" ++ rand else v
  | _ => jstr "msg-" ++ (Nat.repr now).data ++ jstr "-" ++ rand

/-- Embeds the anchored case-insensitive marker strip in `normalizeSubject`
(src/email-parser.ts:130): `replace(/^(re:|fwd?:|fw:)\s*/i, '')`. -/
def stripReMarker (s : JStr) : JStr :=
  let ls := jsLower s
  if (jstr "re:").isPrefixOf ls then (s.drop 3).dropWhile wsChar
  else if (jstr "fwd:").isPrefixOf ls then (s.drop 4).dropWhile wsChar
  else if (jstr "fw:").isPrefixOf ls then (s.drop 3).dropWhile wsChar
  else s

/-- Embeds `normalizeSubject` (src/email-parser.ts:125-133).  The final
`normalize('NFC')` is modelled as the identity: all claim-relevant text is
ASCII, on which NFC is the identity. -/
def normalizeSubject (s : JStr) : JStr :=
  if s = [] then [] else trimList (stripReMarker s)

/-- Case-insensitive prefix test (used by the models of the `/i` regexes in
`stripHtmlTags`). -/
def ciPrefix (pat l : JStr) : Bool := pat.isPrefixOf (jsLower l)

/-- Helper for the `<script...>.*?</script>` / `<style...>.*?</style>` block
regexes: scan for the closing tag without crossing a newline (the regex `.`
does not match `\n`).  Returns the remainder after the closing tag. -/
def findBlockClose (close : JStr) : JStr → Option JStr
  | [] => none
  | c :: rest =>
    if ciPrefix close (c :: rest) then some ((c :: rest).drop close.length)
    else if c = '\n' then none
    else findBlockClose close rest

/-- Fuel-driven scanner modelling `replace(/<tag[^>]*>.*?<\/tag>/gi, '')`. -/
def removeBlocksGo (openT closeT : JStr) : Nat → JStr → JStr
  | 0, l => l
  | _ + 1, [] => []
  | fuel + 1, c :: rest =>
    if ciPrefix openT (c :: rest) then
      -- consume `[^>]*` then `>`
      let afterOpen := (c :: rest).drop openT.length
      let inTag := afterOpen.dropWhile (fun x => x ≠ '>')
      match inTag with
      | '>' :: afterGt =>
        -- any matched `[^>]*` span and the `.*?` span may not contain '\n'
        if (afterOpen.takeWhile (fun x => x ≠ '>')).contains '\n' then
          c :: removeBlocksGo openT closeT fuel rest
        else
          match findBlockClose closeT afterGt with
          | some rem => removeBlocksGo openT closeT fuel rem
          | none => c :: removeBlocksGo openT closeT fuel rest
      | _ => c :: removeBlocksGo openT closeT fuel rest
    else c :: removeBlocksGo openT closeT fuel rest

/-- Model of `replace(/<script[^>]*>.*?<\/script>/gi, '')` and its `style`
counterpart (src/email-parser.ts:206-207). -/
def removeBlocks (openT closeT l : JStr) : JStr :=
  removeBlocksGo openT closeT l.length l

/-- Fuel-driven scanner modelling `replace(/<[^>]+>/g, '')`
(src/email-parser.ts:208). -/
def removeTagsGo : Nat → JStr → JStr
  | 0, l => l
  | _ + 1, [] => []
  | fuel + 1, c :: rest =>
    if c = '<' then
      let inner := rest.takeWhile (fun x => x ≠ '>')
      match rest.drop inner.length with
      | '>' :: after =>
        if inner = [] then c :: removeTagsGo fuel rest
        else removeTagsGo fuel after
      | _ => c :: removeTagsGo fuel rest
    else c :: removeTagsGo fuel rest

/-- Model of `replace(/<[^>]+>/g, '')`. -/
def removeTags (l : JStr) : JStr := removeTagsGo l.length l

/-- Fuel-driven literal global replacement, modelling
`replace(/pat/g, rep)` for a fixed literal pattern (the entity rewrites in
`stripHtmlTags`, src/email-parser.ts:209-214). -/
def replaceLitGo (pat rep : JStr) : Nat → JStr → JStr
  | 0, l => l
  | _ + 1, [] => []
  | fuel + 1, c :: rest =>
    if pat.isPrefixOf (c :: rest) then rep ++ replaceLitGo pat rep fuel ((c :: rest).drop pat.length)
    else c :: replaceLitGo pat rep fuel rest

/-- Literal global replacement wrapper. -/
def replaceLit (pat rep l : JStr) : JStr := replaceLitGo pat rep l.length l

/-- Embeds `stripHtmlTags` (src/email-parser.ts:204-216). -/
def stripHtmlTags (html : JStr) : JStr :=
  let s1 := removeBlocks (jstr "<script") (jstr "</script>") html
  let s2 := removeBlocks (jstr "<style") (jstr "</style>") s1
  let s3 := removeTags s2
  let s4 := replaceLit (jstr "&nbsp;") (jstr " ") s3
  let s5 := replaceLit (jstr "&amp;") (jstr "&") s4
  let s6 := replaceLit (jstr "&lt;") (jstr "<") s5
  let s7 := replaceLit (jstr "&gt;") (jstr ">") s6
  let s8 := replaceLit (jstr "&quot;") (jstr "\"") s7
  let s9 := replaceLit (jstr "&#39;") (jstr "\x27") s8
  trimList s9

/-- The whitespace pipeline applied by `normalizeBody`
(src/email-parser.ts:150-154): CRLF and CR to LF, runs of three or more
newlines to a blank line, then trim. -/
def wsPipeline (s : JStr) : JStr :=
  trimList (collapseNewlines (replaceCR (replaceCRLF s)))

/-- Embeds `normalizeBody` (src/email-parser.ts:135-162). -/
def normalizeBody (textF htmlF : Option JStr) : BodyRec :=
  let text := textF.getD []
  let html := htmlF.getD []
  let normalized0 := if text = [] && html ≠ [] then stripHtmlTags html else text
  { text := if text = [] then none else some text
    html := if html = [] then none else some html
    normalized := wsPipeline normalized0 }

/-- Embeds the private `processAttachments` of `EmailParser`
(src/email-parser.ts:164-180), which shapes raw mailparser attachments into
`Attachment` records. -/
def shapeAttachments (l : List RawAttachment) : List Attachment :=
  l.map (fun att =>
    { filename := (match att.filename with | some f => if f = [] then jstr "unknown" else f | none => jstr "unknown")
      contentType := (match att.contentType with | some c => if c = [] then jstr "application/octet-stream" else c | none => jstr "application/octet-stream")
      size := att.size.getD 0
      content := att.content
      isInline := att.contentDisposition = some (jstr "inline")
      cid := match att.cid with | some c => if c = [] then none else some c | none => none })

/-- Embeds `normalizeHeaders` (src/email-parser.ts:182-202). -/
def normalizeHeaders (headers : List (JStr × HeaderVal)) : List (JStr × JStr) :=
  headers.foldl
    (fun acc p =>
      let v : JStr :=
        match p.2 with
        | .str v => v
        | .arr vs => List.intercalate (jstr ", ") vs
        | .dateV d => jsDateToISO d
      recordSet acc (jsLower p.1) v)
    []

/-- Truthiness of `list?.[0]?.address`: the first address of the extracted
list exists and is a nonempty string. -/
def truthyFirstAddr : Option (List MailAddr) → Bool
  | some (a :: _) => a.address ≠ []
  | _ => false

/-- The `hasFrom` test of the validation gate (src/email-parser.ts:33). -/
def hasFromB (p : ParsedMail) : Bool := truthyFirstAddr (extractAddressValue p.«from»)

/-- The `hasTo` test of the validation gate (src/email-parser.ts:34). -/
def hasToB (p : ParsedMail) : Bool := truthyFirstAddr (extractAddressValue p.«to»)

/-- The `hasSubject` test of the validation gate (src/email-parser.ts:35). -/
def hasSubjectB (p : ParsedMail) : Bool := p.subject.getD [] ≠ []

/-- The `hasBody` test of the validation gate (src/email-parser.ts:36). -/
def hasBodyB (p : ParsedMail) : Bool := p.text.getD [] ≠ [] || p.html.getD [] ≠ []

/-- Embeds `parseEmail` (src/email-parser.ts:26-65) after the external
decomposition step.  When the validation gate rejects, the thrown `Error` is
wrapped by the surrounding catch into an `EmailParsingError` with message
`Failed to parse email`; the embedding returns that failure directly. -/
def parseEmail (p : ParsedMail) (rawLen now : Nat) (rand : JStr) : Except JStr ParsedEmail :=
  let fromAddress := extractAddressValue p.«from»
  let toAddress := extractAddressValue p.«to»
  if !hasFromB p && !hasToB p && !hasSubjectB p && !hasBodyB p then
    .error (jstr "Failed to parse email")
  else
    .ok
      { messageId := extractMessageId p.headers now rand
        «from» := normalizeEmailAddress (fromAddress.bind (fun l => l.head?))
        «to» := normalizeEmailAddresses (toAddress.getD [])
        cc := some (normalizeEmailAddresses ((extractAddressValue p.cc).getD []))
        bcc := some (normalizeEmailAddresses ((extractAddressValue p.bcc).getD []))
        subject := normalizeSubject (p.subject.getD [])
        body := normalizeBody p.text p.html
        attachments := shapeAttachments p.attachments
        headers := normalizeHeaders p.headers
        date := p.date.getD (.fromTs now)
        size := rawLen }

end EmailParser

namespace AttachmentProcessor

/-! Embedding of src/attachment-processor.ts (class `AttachmentProcessor`). -/

/-- The per-field state of the line scanner in `parseICSContent`. -/
structure ICSState where
  events : List ICSEvent
  current : ICSEvent
  inEvent : Bool
  deriving DecidableEq, Repr

/-- Embeds the key/value branch of `parseICSContent`
(src/attachment-processor.ts:122-149): split on `:` keeping the first two
fields (JS `split(':', 2)`), strip `;parameters` from the key, uppercase it,
trim the value, and drop empty values. -/
def icsAssign (cur : ICSEvent) (t : JStr) : ICSEvent :=
  let parts := splitChar ':' t
  let key := parts.headD []
  let rawValue := (parts.drop 1).headD []
  let cleanKey := jsUpper (key.takeWhile (fun c => c ≠ ';'))
  let normalizedValue := trimList rawValue
  if normalizedValue = [] then cur
  else if cleanKey = jstr "SUMMARY" then { cur with summary := some normalizedValue }
  else if cleanKey = jstr "DTSTART" then { cur with start := some normalizedValue }
  else if cleanKey = jstr "DTEND" then { cur with «end» := some normalizedValue }
  else if cleanKey = jstr "LOCATION" then { cur with location := some normalizedValue }
  else if cleanKey = jstr "DESCRIPTION" then { cur with description := some normalizedValue }
  else cur

/-- Embeds one iteration of the `for (const line of lines)` loop in
`parseICSContent` (src/attachment-processor.ts:111-151). -/
def icsLineStep (st : ICSState) (line : JStr) : ICSState :=
  let t := trimList line
  if t = jstr "BEGIN:VEVENT" then { st with current := {}, inEvent := true }
  else if t = jstr "END:VEVENT" then
    if st.inEvent then { st with events := st.events ++ [st.current], inEvent := false }
    else st
  else if st.inEvent && t.contains ':' then { st with current := icsAssign st.current t }
  else st

/-- Embeds `parseICSContent` (src/attachment-processor.ts:105-154). -/
def parseICSContent (content : JStr) : List ICSEvent :=
  ((splitChar '\n' content).foldl icsLineStep { events := [], current := {}, inEvent := false }).events

/-- Embeds the per-event field copy in `processICSFile`
(src/attachment-processor.ts:93-101): each field is copied only when truthy
(present and nonempty). -/
def mapICSEvent (e : ICSEvent) : ICSEvent :=
  let keep : Option JStr → Option JStr
    | some v => if v = [] then none else some v
    | none => none
  { summary := keep e.summary
    start := keep e.start
    «end» := keep e.«end»
    location := keep e.location
    description := keep e.description }

/-- Embeds `processICSFile` (src/attachment-processor.ts:78-103).  Throwing
`new Error('Invalid or corrupted ICS file')` is modelled as `Except.error`. -/
def processICSFile (a : Attachment) : Except JStr (List ICSEvent) :=
  let content := bufToJStr a.content
  let events := parseICSContent content
  if events.length = 0 && (trimList content).length > 0 then
    .error (jstr "Invalid or corrupted ICS file")
  else
    .ok (events.map mapICSEvent)

/-- Big-endian 32-bit read, the model of `Buffer.readUInt32BE`. -/
def readU32BE (b : List Nat) (off : Nat) : Nat :=
  b.getD off 0 * 16777216 + b.getD (off + 1) 0 * 65536 + b.getD (off + 2) 0 * 256 + b.getD (off + 3) 0

/-- Little-endian 16-bit read, the model of `Buffer.readUInt16LE`. -/
def readU16LE (b : List Nat) (off : Nat) : Nat :=
  b.getD off 0 + b.getD (off + 1) 0 * 256

/-- The record produced by `extractImageMetadata`. -/
structure ImgMeta where
  width : Nat
  height : Nat
  format : JStr
  deriving DecidableEq, Repr

/-- Embeds `extractImageMetadata` (src/attachment-processor.ts:169-216). -/
def extractImageMetadata (content : List Nat) : ImgMeta :=
  if 4 ≤ content.length then
    if content.getD 0 0 = 0x89 && content.getD 1 0 = 0x50 && content.getD 2 0 = 0x4e && content.getD 3 0 = 0x47 then
      { format := jstr "png"
        width := if 24 ≤ content.length then readU32BE content 16 else 0
        height := if 24 ≤ content.length then readU32BE content 20 else 0 }
    else if content.getD 0 0 = 0xff && content.getD 1 0 = 0xd8 then
      { format := jstr "jpeg", width := 0, height := 0 }
    else if content.getD 0 0 = 0x47 && content.getD 1 0 = 0x49 && content.getD 2 0 = 0x46 then
      { format := jstr "gif"
        width := if 10 ≤ content.length then readU16LE content 6 else 0
        height := if 10 ≤ content.length then readU16LE content 8 else 0 }
    else { format := jstr "unknown", width := 0, height := 0 }
  else { format := jstr "unknown", width := 0, height := 0 }

/-- Embeds `processImage` (src/attachment-processor.ts:156-167). -/
def processImage (a : Attachment) : AttachMeta :=
  let m := extractImageMetadata a.content
  .image m.width m.height m.format a.size

/-- Embeds `extractDocumentMetadata` (src/attachment-processor.ts:233-277):
the type is derived from content-type or filename, everything else is a stub. -/
def documentType (a : Attachment) : JStr :=
  let t1 :=
    if a.contentType = jstr "application/pdf" || (jstr ".pdf").isSuffixOf a.filename then
      jstr "pdf"
    else jstr "document"
  if a.contentType = jstr "application/vnd.openxmlformats-officedocument.wordprocessingml.document"
      || (jstr ".docx").isSuffixOf a.filename then
    jstr "docx"
  else t1

/-- Embeds `processDocument` (src/attachment-processor.ts:218-231); note
`metadata.type || 'document'` never falls back since the type is nonempty. -/
def processDocument (a : Attachment) : AttachMeta :=
  .document (documentType a) 0 [] [] a.size

/-- Embeds `extractArchiveMetadata` (src/attachment-processor.ts:294-329). -/
def archiveFormat (a : Attachment) : JStr :=
  let t1 :=
    if a.contentType = jstr "application/zip" || (jstr ".zip").isSuffixOf a.filename then
      jstr "zip"
    else jstr "unknown"
  if a.contentType = jstr "application/x-tar" || (jstr ".tar").isSuffixOf a.filename then
    jstr "tar"
  else t1

/-- Embeds `processArchive` (src/attachment-processor.ts:279-292). -/
def processArchive (a : Attachment) : AttachMeta :=
  .archive 0 a.size 0 (archiveFormat a)

/-- The calendar classification test (src/attachment-processor.ts:23-26). -/
def calMatchB (a : Attachment) : Bool :=
  a.contentType = jstr "text/calendar" || (jstr ".ics").isSuffixOf a.filename

/-- The image classification test (src/attachment-processor.ts:32). -/
def imgMatchB (a : Attachment) : Bool :=
  (jstr "image/").isPrefixOf a.contentType

/-- Embeds `isDocument` (src/attachment-processor.ts:331-346). -/
def docMatchB (a : Attachment) : Bool :=
  [jstr "application/pdf",
   jstr "application/msword",
   jstr "application/vnd.openxmlformats-officedocument.wordprocessingml.document",
   jstr "application/vnd.ms-excel",
   jstr "application/vnd.openxmlformats-officedocument.spreadsheetml.sheet",
   jstr "application/vnd.ms-powerpoint",
   jstr "application/vnd.openxmlformats-officedocument.presentationml.presentation",
   jstr "text/plain",
   jstr "text/csv",
   jstr "application/rtf"].contains a.contentType

/-- Embeds `isArchive` (src/attachment-processor.ts:348-358). -/
def arcMatchB (a : Attachment) : Bool :=
  [jstr "application/zip",
   jstr "application/x-tar",
   jstr "application/gzip",
   jstr "application/x-rar-compressed",
   jstr "application/x-7z-compressed"].contains a.contentType

/-- Embeds `processAttachment` (src/attachment-processor.ts:12-53).  The
`try` block mutates `result` through four independent classification tests;
only the calendar extractor can throw, and a throw carries the partially
mutated `result` into the `catch`, which records the message in `error`.
The function is total: the catch guarantees it never raises to its caller. -/
def processAttachment (a : Attachment) : ProcessedAttachment :=
  let r0 : ProcessedAttachment := { toAttachment := a, processed := false, metadata := .empty }
  -- the try block; `Except.error` carries the result state at throw time
  let tryBlock : Except (ProcessedAttachment × JStr) ProcessedAttachment :=
    match (if calMatchB a then (processICSFile a).map some else .ok none) with
    | .error m => .error (r0, m)
    | .ok stage1 =>
      let r1 := match stage1 with
        | some evs => { r0 with metadata := .calendar evs, processed := true }
        | none => r0
      let r2 := if imgMatchB a then { r1 with metadata := processImage a, processed := true } else r1
      let r3 := if docMatchB a then { r2 with metadata := processDocument a, processed := true } else r2
      let r4 := if arcMatchB a then { r3 with metadata := processArchive a, processed := true } else r3
      .ok r4
  match tryBlock with
  | .ok r => r
  | .error (r, m) => { r with error := some m }

/-- Embeds `processAttachments` (src/attachment-processor.ts:55-76).  The
loop body wraps `processAttachment` in a `try`/`catch`, but `processAttachment`
never throws, so every input contributes exactly its processed record, in
order. -/
def processAttachments : List Attachment → List ProcessedAttachment
  | [] => []
  | a :: rest => processAttachment a :: processAttachments rest

end AttachmentProcessor

namespace ParsingErrorHandler

/-! Embedding of the `ParsingErrorHandler` class
(parsing-error-handler.ts).  The `emailData` argument is the raw byte buffer
routed to the handler when `parseEmail` throws. -/

/-- Embeds the header-line loop of `extractHeaders`
(parsing-error-handler.ts:60-74): stop at the first blank line, split each
remaining line at its first `:`, lowercase the key. -/
def extractHeadersLines : List JStr → List (JStr × JStr) → List (JStr × JStr)
  | [], acc => acc
  | line :: rest, acc =>
    let t := trimList line
    if t = [] then acc
    else if t.contains ':' then
      let key := jsLower (trimList (t.takeWhile (fun c => c ≠ ':')))
      let value := trimList ((t.dropWhile (fun c => c ≠ ':')).drop 1)
      extractHeadersLines rest (recordSet acc key value)
    else extractHeadersLines rest acc

/-- Embeds `extractHeaders` (parsing-error-handler.ts:53-80).  Its internal
`try`/`catch` cannot fire on a byte buffer (`toString` and `split` do not
throw), so the function is total. -/
def extractHeaders (bytes : List Nat) : List (JStr × JStr) :=
  extractHeadersLines (splitChar '\n' (bufToJStr bytes)) []

/-- Models the first alternative of the address regex
`/^\s*(.+?)\s*<\s*(.+?)\s*>\s*$|^\s*(.+?)\s*$/`
(parsing-error-handler.ts:93-95): a `Name <addr>` form requires at least one
character before the first `<` and a final `>` followed only by whitespace;
it yields the display-name part and the bracketed address part. -/
def matchAngleForm (s : JStr) : Option (JStr × JStr) :=
  let i := (s.takeWhile (fun c => c ≠ '<')).length
  if i = 0 || i = s.length then none
  else
    let before := s.take i
    let after := s.drop (i + 1)
    let revAfter := after.reverse
    let revTrimmed := revAfter.dropWhile wsChar
    match revTrimmed with
    | '>' :: revAddr =>
      let addr := trimList revAddr.reverse
      if addr = [] then none else some (trimList before, addr)
    | _ => none

/-- Embeds `parseEmailAddress` (parsing-error-handler.ts:82-123).  On the
bare-address alternative the captured group is the input minus surrounding
whitespace. -/
def parseEmailAddress (s : JStr) : EmailAddress :=
  if s = [] then { address := [], name := [], original := [] }
  else
    match matchAngleForm s with
    | some (name, addr) =>
      { address := jsLower (trimList addr), name := name, original := s }
    | none =>
      { address := jsLower (trimList s), name := [], original := s }

/-- Embeds `parseEmailAddresses` (parsing-error-handler.ts:125-138): split on
commas, trim, parse each entry. -/
def parseEmailAddresses (s : JStr) : List EmailAddress :=
  if s = [] then []
  else (splitChar ',' s).map (fun part => parseEmailAddress (trimList part))

/-- Embeds `extractBasicInfo` (parsing-error-handler.ts:22-37), the Tier-1
recovery: re-derive a best-effort `ParsedEmail` from a line-oriented header
scan.  Every operation it performs is total on a byte buffer, so in the model
it cannot fail. -/
def extractBasicInfo (bytes : List Nat) (now : Nat) : ParsedEmail :=
  let headers := extractHeaders bytes
  { messageId := (recordGet headers (jstr "message-id")).getD (jstr "unknown")
    «from» := parseEmailAddress ((recordGet headers (jstr "from")).getD [])
    «to» := parseEmailAddresses ((recordGet headers (jstr "to")).getD [])
    subject := (recordGet headers (jstr "subject")).getD []
    body := { normalized := [] }
    attachments := []
    headers := headers
    date :=
      match recordGet headers (jstr "date") with
      | some d => if d = [] then .fromTs now else .fromStr d
      | none => .fromTs now
    size := bytes.length }

/-- Embeds `createMinimalEmail` (parsing-error-handler.ts:39-51), the Tier-2
minimal placeholder. -/
def createMinimalEmail (bytes : List Nat) (now : Nat) : ParsedEmail :=
  { messageId := jstr "minimal-" ++ (Nat.repr now).data
    «from» := { address := [], name := [], original := [] }
    «to» := []
    subject := []
    body := { normalized := [] }
    attachments := []
    headers := []
    date := .fromTs now
    size := bytes.length }

/-- The `try`/`catch` skeleton of `handleParsingError`
(parsing-error-handler.ts:13-19), with the Tier-1 outcome abstracted: a Tier-1
exception falls through to the Tier-2 minimal record. -/
def handleParsingErrorWith (tier1 : Except JStr ParsedEmail) (bytes : List Nat) (now : Nat) :
    ParsedEmail :=
  match tier1 with
  | .ok e => e
  | .error _ => createMinimalEmail bytes now

/-- Embeds `handleParsingError` (parsing-error-handler.ts:4-20).  On a byte
buffer every Tier-1 operation is total, so the Tier-1 outcome is always `ok`;
the catch structure is retained through `handleParsingErrorWith`.  The `err`
argument is only logged by the source. -/
def handleParsingError (_err : JStr) (bytes : List Nat) (now : Nat) : ParsedEmail :=
  handleParsingErrorWith (.ok (extractBasicInfo bytes now)) bytes now

end ParsingErrorHandler

section TrimLemmas

/-- The head surviving `dropWhile` fails the predicate. -/
theorem dropWhile_head_not (p : Char → Bool) (l : JStr) (c : Char)
    (h : (l.dropWhile p).head? = some c) : p c = false := by
  induction l with
  | nil => simp at h
  | cons a rest ih =>
    by_cases hp : p a
    · exact ih (by simpa [List.dropWhile, hp] using h)
    · simp only [List.dropWhile, hp, Bool.false_eq_true, if_false, List.head?] at h
      cases h
      simpa using hp

/-- `dropWhile` is the identity when the head already fails the predicate. -/
theorem dropWhile_of_head_not (p : Char → Bool) (l : JStr)
    (h : ∀ c, l.head? = some c → p c = false) : l.dropWhile p = l := by
  cases l with
  | nil => rfl
  | cons a rest => simp [List.dropWhile, h a rfl]

/-- The trim model is right-trim after left-trim. -/
theorem trimList_eq_rdropWhile (l : JStr) :
    trimList l = List.rdropWhile wsChar (l.dropWhile wsChar) := rfl

/-- JS `trim()` is idempotent. -/
theorem trimList_idem (l : JStr) : trimList (trimList l) = trimList l := by
  rw [trimList_eq_rdropWhile, trimList_eq_rdropWhile]
  have hA : List.dropWhile wsChar (List.rdropWhile wsChar (l.dropWhile wsChar))
      = List.rdropWhile wsChar (l.dropWhile wsChar) := by
    apply dropWhile_of_head_not
    intro c hc
    obtain ⟨t, ht⟩ := List.rdropWhile_prefix wsChar (l.dropWhile wsChar)
    apply dropWhile_head_not wsChar l c
    cases hr : List.rdropWhile wsChar (l.dropWhile wsChar) with
    | nil => rw [hr] at hc; simp at hc
    | cons x xs =>
      rw [hr] at hc ht
      simp only [List.head?] at hc
      cases hc
      rw [← ht]
      rfl
  rw [hA, List.rdropWhile_idempotent]

/-- Membership in the trimmed list implies membership in the original. -/
theorem mem_of_mem_trimList {c : Char} {l : JStr} (h : c ∈ trimList l) : c ∈ l := by
  rw [trimList_eq_rdropWhile] at h
  obtain ⟨t, ht⟩ := List.rdropWhile_prefix wsChar (l.dropWhile wsChar)
  have h1 : c ∈ l.dropWhile wsChar := ht ▸ List.mem_append_left t h
  exact (List.dropWhile_suffix wsChar).mem h1

/-- A list whose trim is empty consists of whitespace only. -/
theorem trimList_eq_nil_all_ws {l : JStr} (h : trimList l = []) :
    ∀ c ∈ l, wsChar c = true := by
  rw [trimList_eq_rdropWhile, List.rdropWhile_eq_nil_iff] at h
  intro c hc
  have hsplit : c ∈ List.takeWhile wsChar l ++ List.dropWhile wsChar l := by
    rw [List.takeWhile_append_dropWhile]
    exact hc
  rcases List.mem_append.mp hsplit with h1 | h2
  · exact List.mem_takeWhile_imp h1
  · exact h c h2

/-- A whitespace-only list trims to nothing. -/
theorem trimList_eq_nil_of_all_ws {l : JStr} (h : ∀ c ∈ l, wsChar c = true) :
    trimList l = [] := by
  rw [trimList_eq_rdropWhile, List.rdropWhile_eq_nil_iff]
  intro c hc
  exact h c ((List.dropWhile_suffix wsChar).mem hc)

end TrimLemmas

section NewlineLemmas

/-- After `replace(/\r/g, '\n')` no carriage return remains. -/
theorem replaceCR_no_cr (l : JStr) : '\r' ∉ replaceCR l := by
  induction l with
  | nil => simp [replaceCR]
  | cons c rest ih =>
    simp only [replaceCR, List.mem_cons, not_or]
    refine ⟨?_, ih⟩
    by_cases hc : c = '\r' <;> simp [hc]
    · intro h
      exact hc h.symm

/-- `collapseNewlines` only deletes characters. -/
theorem mem_collapseNewlines {c : Char} {l : JStr} (h : c ∈ collapseNewlines l) : c ∈ l := by
  induction l using collapseNewlines.induct with
  | case1 a d e rest hg ih =>
    rw [collapseNewlines, if_pos hg] at h
    exact List.mem_cons_of_mem a (ih h)
  | case2 a d e rest hg ih =>
    rw [collapseNewlines, if_neg hg] at h
    rcases List.mem_cons.mp h with h1 | h2
    · exact h1 ▸ List.mem_cons_self a _
    · exact List.mem_cons_of_mem a (ih h2)
  | case3 l hl =>
    have hid : collapseNewlines l = l := by
      rcases l with _ | ⟨a, _ | ⟨b, _ | ⟨e, rest⟩⟩⟩
      · rfl
      · rfl
      · rfl
      · exact absurd rfl (hl a b e rest)
    rwa [hid] at h

/-- `collapseNewlines` preserves the head character. -/
theorem collapseNewlines_head? (l : JStr) : (collapseNewlines l).head? = l.head? := by
  induction l using collapseNewlines.induct with
  | case1 a d e rest hg ih =>
    rw [collapseNewlines, if_pos hg, ih]
    have ha : a = '\n' := by
      rcases Bool.and_eq_true_iff.mp hg with ⟨h1, _⟩
      rcases Bool.and_eq_true_iff.mp h1 with ⟨h2, _⟩
      exact of_decide_eq_true h2
    have hd : d = '\n' := by
      rcases Bool.and_eq_true_iff.mp hg with ⟨h1, _⟩
      rcases Bool.and_eq_true_iff.mp h1 with ⟨_, h3⟩
      exact of_decide_eq_true h3
    rw [ha, hd]
    rfl
  | case2 a d e rest hg ih =>
    rw [collapseNewlines, if_neg hg]
    rfl
  | case3 l hl =>
    have hid : collapseNewlines l = l := by
      rcases l with _ | ⟨a, _ | ⟨b, _ | ⟨e, rest⟩⟩⟩
      · rfl
      · rfl
      · rfl
      · exact absurd rfl (hl a b e rest)
    rw [hid]

end NewlineLemmas

section NoTripleLemmas

/-- The window checker agrees with "no `\n\n\n` infix". -/
theorem noTripleNewline_iff (l : JStr) :
    noTripleNewline l = true ↔ ¬ ['\n', '\n', '\n'] <:+: l := by
  induction l with
  | nil =>
    simp only [noTripleNewline, true_iff]
    intro h
    have := h.length_le
    simp at this
  | cons c rest ih =>
    cases rest with
    | nil =>
      simp only [noTripleNewline, true_iff]
      intro h
      have := h.length_le
      simp at this
    | cons d rest2 =>
      cases rest2 with
      | nil =>
        simp only [noTripleNewline, true_iff]
        intro h
        have := h.length_le
        simp at this
      | cons e rest3 =>
        rw [noTripleNewline]
        constructor
        · intro h hinf
          rcases Bool.and_eq_true_iff.mp h with ⟨hg, htl⟩
          rcases List.infix_cons_iff.mp hinf with hpre | htail
          · rcases List.cons_prefix_cons.mp hpre with ⟨hc, hpre2⟩
            rcases List.cons_prefix_cons.mp hpre2 with ⟨hd2, hpre3⟩
            rcases List.cons_prefix_cons.mp hpre3 with ⟨he2, _⟩
            rw [← hc, ← hd2, ← he2] at hg
            simp at hg
          · exact (ih.mp htl) htail
        · intro h
          apply Bool.and_eq_true_iff.mpr
          refine ⟨?_, ih.mpr (fun htail => h (List.infix_cons_iff.mpr (Or.inr htail)))⟩
          by_cases hc : c = '\n'
          · by_cases hd2 : d = '\n'
            · by_cases he2 : e = '\n'
              · exact absurd
                  (show ['\n', '\n', '\n'] <:+: c :: d :: e :: rest3 by
                    rw [hc, hd2, he2]
                    exact ⟨[], rest3, by simp⟩)
                  h
              · simp [he2]
            · simp [hd2]
          · simp [hc]

end NoTripleLemmas

/-- Attaching a character cannot create a newline triple unless the next two
characters are newlines. -/
theorem noTriple_cons_of (c : Char) (l : JStr) (hl : noTripleNewline l = true)
    (h : c ≠ '\n' ∨ l.head? ≠ some '\n' ∨ l.tail.head? ≠ some '\n') :
    noTripleNewline (c :: l) = true := by
  cases l with
  | nil => rfl
  | cons x t =>
    cases t with
    | nil => rfl
    | cons y t2 =>
      have expand : noTripleNewline (c :: x :: y :: t2)
          = (!(c = '\n' && x = '\n' && y = '\n') && noTripleNewline (x :: y :: t2)) := rfl
      rw [expand, hl, Bool.and_true]
      rcases h with h1 | h2 | h3
      · simp [h1]
      · have hx : x ≠ '\n' := by simpa using h2
        simp [hx]
      · have hy : y ≠ '\n' := by simpa using h3
        simp [hy]

/-- The collapse pass leaves no three consecutive newlines. -/
theorem noTriple_collapseNewlines (l : JStr) :
    noTripleNewline (collapseNewlines l) = true := by
  induction l using collapseNewlines.induct with
  | case1 a d e rest hg ih =>
    rw [collapseNewlines, if_pos hg]
    exact ih
  | case2 a d e rest hg ih =>
    rw [collapseNewlines, if_neg hg]
    apply noTriple_cons_of a _ ih
    by_cases ha : a = '\n'
    · by_cases hd2 : d = '\n'
      · have he2 : e ≠ '\n' := by
          intro he2
          exact hg (by simp [ha, hd2, he2])
        right; right
        cases rest with
        | nil =>
          show (collapseNewlines [d, e]).tail.head? ≠ some '\n'
          simp [collapseNewlines, he2]
        | cons r rs =>
          have hgg : ¬(d = '\n' && e = '\n' && r = '\n') = true := by
            simp [he2]
          rw [collapseNewlines, if_neg hgg]
          have := collapseNewlines_head? (e :: r :: rs)
          simp only [List.tail_cons, this]
          simpa using he2
      · right; left
        rw [collapseNewlines_head?]
        simpa using hd2
    · exact Or.inl ha
  | case3 l hl =>
    have hid : collapseNewlines l = l := by
      rcases l with _ | ⟨a, _ | ⟨b, _ | ⟨e, rest⟩⟩⟩
      · rfl
      · rfl
      · rfl
      · exact absurd rfl (hl a b e rest)
    rw [hid]
    rcases l with _ | ⟨a, _ | ⟨b, _ | ⟨e, rest⟩⟩⟩
    · rfl
    · rfl
    · rfl
    · exact absurd rfl (hl a b e rest)

/-- Trimming preserves the absence of newline triples. -/
theorem noTriple_trimList {l : JStr} (h : noTripleNewline l = true) :
    noTripleNewline (trimList l) = true := by
  rw [noTripleNewline_iff] at h ⊢
  intro hinf
  apply h
  have htrim : trimList l <:+: l := by
    rw [trimList_eq_rdropWhile]
    exact (List.rdropWhile_prefix wsChar (l.dropWhile wsChar)).isInfix.trans
      (List.dropWhile_suffix wsChar).isInfix
  exact hinf.trans htrim

section Claims

open EmailParser AttachmentProcessor ParsingErrorHandler

/-- C9: body normalization collapses every line-ending variant (CRLF and bare
CR) to a single newline, collapses runs of three or more newlines to exactly
one blank line, and trims the result; in particular
`"a\r\nb\rc\n\n\nd"` normalizes to `"a\nb\nc\n\nd"`.  The final conjunct
records that `normalizeBody` applies exactly this pipeline to the selected
body text. -/
theorem C9_body_normalization (s : JStr) :
    '\r' ∉ wsPipeline s ∧
    noTripleNewline (wsPipeline s) = true ∧
    trimList (wsPipeline s) = wsPipeline s ∧
    wsPipeline (jstr "a\r\nb\rc\n\n\nd") = jstr "a\nb\nc\n\nd" ∧
    (normalizeBody (some s) none).normalized = wsPipeline s := by
  refine ⟨?_, ?_, ?_, by decide, ?_⟩
  · intro hmem
    unfold wsPipeline at hmem
    exact replaceCR_no_cr (replaceCRLF s)
      (mem_collapseNewlines (mem_of_mem_trimList hmem))
  · exact noTriple_trimList (noTriple_collapseNewlines _)
  · exact trimList_idem _
  · simp [normalizeBody]

/-- C1 counterexample: for a source mailbox written with surrounding
whitespace, the canonical address produced by `normalizeEmailAddress` is the
lowercased mailbox, which differs from the trimmed-and-lowercased mailbox:
no trimming takes place. -/
theorem C1_counterexample :
    (normalizeEmailAddress (some { address := jstr " A@B.COM " })).address
      ≠ trimList (jsLower (jstr " A@B.COM ")) := by decide

/-- C1 (amended): for every address record produced from a mailbox that is
present and nonempty, the canonical address is the source mailbox lowercased
(no whitespace trimming is applied); the name equals the display name when
present and is empty otherwise; the `original` field preserves the verbatim
source text whenever the decomposition supplies one (preferring `original`,
then `text`), and is never empty. -/
theorem C1_address_normalization (ad : MailAddr) (h : ad.address ≠ []) :
    (normalizeEmailAddress (some ad)).address = jsLower ad.address ∧
    (normalizeEmailAddress (some ad)).name = ad.name.getD [] ∧
    (∀ o, ad.original = some o → o ≠ [] →
      (normalizeEmailAddress (some ad)).original = o) ∧
    ((ad.original = none ∨ ad.original = some []) →
      ∀ t, ad.text = some t → t ≠ [] →
        (normalizeEmailAddress (some ad)).original = t) ∧
    (normalizeEmailAddress (some ad)).original ≠ [] := by
  refine ⟨?_, ?_, ?_, ?_, ?_⟩
  · simp [normalizeEmailAddress, h]
  · simp [normalizeEmailAddress, h]
  · intro o ho hone
    simp [normalizeEmailAddress, h, ho, hone]
  · intro horig t ht htne
    rcases horig with h0 | h0 <;>
      simp [normalizeEmailAddress, h, h0, ht, htne]
  · simp only [normalizeEmailAddress, h, if_neg h]
    rcases ho : ad.original with _ | o
    · rcases ht : ad.text with _ | t
      · rcases hn : ad.name with _ | n
        · simpa using h
        · by_cases hne : n = [] <;> simp [hne, h]
      · by_cases hte : t = []
        · subst hte
          rcases hn : ad.name with _ | n
          · simpa using h
          · by_cases hne : n = [] <;> simp [hne, h]
        · simp [hte]
    · by_cases hoe : o = []
      · subst hoe
        rcases ht : ad.text with _ | t
        · rcases hn : ad.name with _ | n
          · simpa using h
          · by_cases hne : n = [] <;> simp [hne, h]
        · by_cases hte : t = []
          · subst hte
            rcases hn : ad.name with _ | n
            · simpa using h
            · by_cases hne : n = [] <;> simp [hne, h]
          · simp [hte]
      · simp [hoe]

/-- Concrete input for the C1 witness. -/
def c1AddrIn : MailAddr :=
  ⟨jstr "USER@Example.org", some (jstr "U"), some (jstr "U <USER@Example.org>"), none⟩

/-- C1 witness: the amended theorem evaluated at a concrete address record. -/
theorem C1_address_normalization_witness :
    (normalizeEmailAddress (some c1AddrIn)).address = jsLower (jstr "USER@Example.org") ∧
    (normalizeEmailAddress (some c1AddrIn)).original = jstr "U <USER@Example.org>" :=
  ⟨(C1_address_normalization c1AddrIn (by decide)).1,
   (C1_address_normalization c1AddrIn (by decide)).2.2.1 _ rfl (by decide)⟩

/-- C8: image extraction reads dimensions from fixed-offset big-endian fields
for PNG and little-endian fields for GIF when enough bytes are available, and
never computes JPEG dimensions: every buffer starting with the JPEG magic
bytes reports width 0 and height 0, and the concrete 100 by 100 PNG header
yields format png with width and height 100. -/
theorem C8_image_extraction (content : List Nat) :
    (∀ rest, content = [0x89, 0x50, 0x4e, 0x47] ++ rest → 24 ≤ content.length →
      extractImageMetadata content
        = { format := jstr "png", width := readU32BE content 16,
            height := readU32BE content 20 }) ∧
    (∀ rest, content = [0x47, 0x49, 0x46] ++ rest → 10 ≤ content.length →
      extractImageMetadata content
        = { format := jstr "gif", width := readU16LE content 6,
            height := readU16LE content 8 }) ∧
    (∀ rest, content = 0xff :: 0xd8 :: rest →
      (extractImageMetadata content).width = 0 ∧
      (extractImageMetadata content).height = 0) ∧
    extractImageMetadata
      [0x89, 0x50, 0x4e, 0x47, 0x0d, 0x0a, 0x1a, 0x0a, 0, 0, 0, 13,
        0x49, 0x48, 0x44, 0x52, 0, 0, 0, 100, 0, 0, 0, 100]
      = { format := jstr "png", width := 100, height := 100 } := by
  refine ⟨?_, ?_, ?_, by decide⟩
  · intro rest hc hlen
    subst hc
    rw [extractImageMetadata]
    rw [if_pos (by simp), if_pos (by simp), if_pos hlen, if_pos hlen]
  · intro rest hc hlen
    subst hc
    have hr : 7 ≤ rest.length := by simpa using hlen
    rw [extractImageMetadata]
    rw [if_pos (by simp; omega)]
    rw [if_neg (by simp), if_neg (by simp), if_pos (by simp)]
    rw [if_pos (by simp; omega), if_pos (by simp; omega)]
  · intro rest hc
    subst hc
    match rest with
    | [] => exact ⟨rfl, rfl⟩
    | [x] => exact ⟨rfl, rfl⟩
    | x :: y :: t =>
      rw [extractImageMetadata]
      rw [if_pos (by simp), if_neg (by simp), if_pos (by simp)]
      exact ⟨rfl, rfl⟩

/-- Concrete PNG buffer for the C8 witness (a 100 by 100 IHDR header). -/
def c8Png : List Nat :=
  [0x89, 0x50, 0x4e, 0x47, 0x0d, 0x0a, 0x1a, 0x0a, 0, 0, 0, 13,
   0x49, 0x48, 0x44, 0x52, 0, 0, 0, 100, 0, 0, 0, 100]

/-- Concrete GIF buffer for the C8 witness (10 by 20 logical screen). -/
def c8Gif : List Nat := [0x47, 0x49, 0x46, 0x38, 0x39, 0x61, 10, 0, 20, 0]

/-- C8 witness: the theorem evaluated on concrete PNG, GIF and JPEG buffers. -/
theorem C8_image_extraction_witness :
    extractImageMetadata c8Png
      = { format := jstr "png", width := readU32BE c8Png 16, height := readU32BE c8Png 20 } ∧
    extractImageMetadata c8Gif
      = { format := jstr "gif", width := readU16LE c8Gif 6, height := readU16LE c8Gif 8 } ∧
    (extractImageMetadata [0xff, 0xd8]).width = 0 ∧
    (extractImageMetadata [0xff, 0xd8]).height = 0 :=
  ⟨(C8_image_extraction c8Png).1 _ rfl (by decide),
   (C8_image_extraction c8Gif).2.1 _ rfl (by decide),
   ((C8_image_extraction [0xff, 0xd8]).2.2.1 [] rfl).1,
   ((C8_image_extraction [0xff, 0xd8]).2.2.1 [] rfl).2⟩

/-- C5: `parseEmail` fails with the `EmailParsingError` parsing failure
exactly when the decomposed input has none of a from address, a to address,
a subject, and body text or html; when at least one is present the input
passes the validation gate and a parsed record is returned. -/
theorem C5_validation_gate (p : ParsedMail) (rawLen now : Nat) (rand : JStr) :
    (parseEmail p rawLen now rand = .error (jstr "Failed to parse email")
      ↔ hasFromB p = false ∧ hasToB p = false ∧ hasSubjectB p = false ∧ hasBodyB p = false) ∧
    ((parseEmail p rawLen now rand).isOk = true
      ↔ (hasFromB p || hasToB p || hasSubjectB p || hasBodyB p) = true) := by
  cases h1 : hasFromB p <;> cases h2 : hasToB p <;> cases h3 : hasSubjectB p <;>
    cases h4 : hasBodyB p <;>
    simp [parseEmail, h1, h2, h3, h4, Except.isOk, Except.toBool]

/-- C2: `handleParsingError` never raises on any byte-buffer input: it is a
total function whose result is either the Tier-1 best-effort record or the
Tier-2 minimal placeholder; whenever Tier-1 ends in an exception the catch
returns the minimal placeholder, whose messageId is `minimal-<timestamp>`,
whose address fields are empty, whose body is empty, whose date is the
current timestamp, and whose size equals the input length. -/
theorem C2_error_handler (err : JStr) (bytes : List Nat) (now : Nat) (m : JStr) :
    (handleParsingError err bytes now = extractBasicInfo bytes now ∨
     handleParsingError err bytes now = createMinimalEmail bytes now) ∧
    handleParsingErrorWith (.error m) bytes now = createMinimalEmail bytes now ∧
    (createMinimalEmail bytes now).messageId = jstr "minimal-" ++ (Nat.repr now).data ∧
    (createMinimalEmail bytes now).«from» = { address := [], name := [], original := [] } ∧
    (createMinimalEmail bytes now).«to» = [] ∧
    (createMinimalEmail bytes now).cc = none ∧
    (createMinimalEmail bytes now).bcc = none ∧
    (createMinimalEmail bytes now).body = { text := none, html := none, normalized := [] } ∧
    (createMinimalEmail bytes now).date = .fromTs now ∧
    (createMinimalEmail bytes now).size = bytes.length :=
  ⟨Or.inl rfl, rfl, rfl, rfl, rfl, rfl, rfl, rfl, rfl, rfl⟩

/-- C3: `processAttachment` never raises to its caller (it is a total
function); if an extractor throws, the result has `processed` false and
`error` set to the exception message; if no classification category matched,
the result keeps empty metadata and `processed` false with no error set. -/
theorem C3_attachment_error_isolation (a : Attachment) :
    (∀ m, calMatchB a = true → processICSFile a = .error m →
      processAttachment a
        = { toAttachment := a, processed := false, metadata := .empty, error := some m }) ∧
    (calMatchB a = false → imgMatchB a = false → docMatchB a = false → arcMatchB a = false →
      processAttachment a
        = { toAttachment := a, processed := false, metadata := .empty, error := none }) := by
  constructor
  · intro m hcal hics
    simp [processAttachment, hcal, hics, Except.map]
  · intro h1 h2 h3 h4
    simp [processAttachment, h1, h2, h3, h4]

/-- Concrete corrupted calendar attachment for the C3 witness. -/
def c3Bad : Attachment :=
  ⟨jstr "x.ics", jstr "text/calendar", 7, (jstr "garbage").map Char.toNat, none, false⟩

/-- Concrete unclassified attachment for the C3 witness. -/
def c3None : Attachment :=
  ⟨jstr "x.bin", jstr "application/octet-stream", 0, [], none, false⟩

/-- C3 witness: both error branches evaluated on concrete attachments. -/
theorem C3_attachment_error_isolation_witness :
    processAttachment c3Bad
      = { toAttachment := c3Bad, processed := false, metadata := .empty,
          error := some (jstr "Invalid or corrupted ICS file") } ∧
    processAttachment c3None
      = { toAttachment := c3None, processed := false, metadata := .empty, error := none } :=
  ⟨(C3_attachment_error_isolation c3Bad).1 _ (by decide) rfl,
   (C3_attachment_error_isolation c3None).2 (by decide) (by decide) (by decide) (by decide)⟩

/-- The batch loop contributes exactly one processed record per attachment. -/
theorem processAttachments_eq_map (l : List Attachment) :
    processAttachments l = l.map processAttachment := by
  induction l with
  | nil => rfl
  | cons a rest ih => simp [processAttachments, ih]

/-- Concrete image attachment for the C4 batch scenario. -/
def c4Img : Attachment := ⟨jstr "p.png", jstr "image/png", 24, c8Png, none, false⟩

/-- Concrete corrupted calendar attachment for the C4 batch scenario: its
extraction throws. -/
def c4Bad : Attachment :=
  ⟨jstr "b.ics", jstr "text/calendar", 9, (jstr "not a cal").map Char.toNat, none, false⟩

/-- Concrete document attachment for the C4 batch scenario. -/
def c4Doc : Attachment :=
  ⟨jstr "n.txt", jstr "text/plain", 5, (jstr "notes").map Char.toNat, none, false⟩

/-- C4: `processAttachments` returns exactly one result per input, in input
order, and one item's extraction failure does not abort the batch or lose the
other results; on the concrete batch whose second item throws during
extraction, the output has three entries with the middle one failed
(`processed` false, populated error) and the outer two processed normally. -/
theorem C4_batch_per_item_isolation (l : List Attachment) :
    (processAttachments l).length = l.length ∧
    (∀ i : Nat, (processAttachments l)[i]? = l[i]?.map processAttachment) ∧
    (processAttachments [c4Img, c4Bad, c4Doc]).map (fun r => (r.processed, r.error.isSome))
      = [(true, false), (false, true), (true, false)] := by
  refine ⟨?_, ?_, by decide⟩
  · rw [processAttachments_eq_map, List.length_map]
  · intro i
    rw [processAttachments_eq_map, List.getElem?_map]

/-- The metadata of the last matching extractor in the fixed classification
order calendar, image, document, archive (a later matching test overwrites
the metadata of an earlier one). -/
def lastMatchMeta (a : Attachment) (evs : List ICSEvent) : AttachMeta :=
  if arcMatchB a then processArchive a
  else if docMatchB a then processDocument a
  else if imgMatchB a then processImage a
  else if calMatchB a then .calendar evs
  else .empty

/-- Concrete attachment matching both calendar (filename) and document
(content-type) whose calendar content is corrupt, so the calendar extractor
throws before the document test can run. -/
def c6BadBoth : Attachment :=
  ⟨jstr "m.ics", jstr "text/plain", 8, (jstr "garbled!").map Char.toNat, none, false⟩

/-- C6 counterexample: an attachment matching more than one category (calendar
and document) for which the final metadata is not that of the last matching
extractor and `processed` is false: the calendar extractor throws, aborting
the remaining classification tests. -/
theorem C6_counterexample :
    calMatchB c6BadBoth = true ∧ docMatchB c6BadBoth = true ∧
    (processAttachment c6BadBoth).metadata ≠ processDocument c6BadBoth ∧
    (processAttachment c6BadBoth).processed = false ∧
    (processAttachment c6BadBoth).error.isSome = true := by decide

/-- C6 (amended): the classification tests run independently in the fixed
order calendar, image, document, archive; provided no matching extractor
throws (the calendar extractor being the only one that can), an attachment
matching at least one category ends with the metadata of the last matching
extractor in this order and `processed` true; in particular a `text/plain`
attachment with an `.ics` filename and well-formed calendar content ends with
the document extractor's metadata. -/
theorem C6_classification_order (a : Attachment) (evs : List ICSEvent)
    (hcal : calMatchB a = true → processICSFile a = Except.ok evs) :
    (arcMatchB a || docMatchB a || imgMatchB a || calMatchB a) = true →
      (processAttachment a).metadata = lastMatchMeta a evs ∧
      (processAttachment a).processed = true ∧
      (processAttachment a).error = none := by
  intro hany
  cases hc : calMatchB a with
  | true =>
    have hok := hcal hc
    cases himg : imgMatchB a <;> cases hdoc : docMatchB a <;> cases harc : arcMatchB a <;>
      simp [processAttachment, lastMatchMeta, hc, hok, himg, hdoc, harc, Except.map]
  | false =>
    cases himg : imgMatchB a <;> cases hdoc : docMatchB a <;> cases harc : arcMatchB a <;>
      simp_all [processAttachment, lastMatchMeta, Except.map]

/-- Concrete attachment matching both calendar and document with well-formed
calendar content, for the C6 witness. -/
def c6Both : Attachment :=
  ⟨jstr "m.ics", jstr "text/plain", 33,
   (jstr "BEGIN:VEVENT\nSUMMARY:S\nEND:VEVENT").map Char.toNat, none, false⟩

/-- The events the calendar extractor finds in `c6Both`. -/
def c6Evs : List ICSEvent := [⟨some (jstr "S"), none, none, none, none⟩]

/-- C6 witness: on `c6Both` (calendar and document both match, calendar
content well-formed) the final metadata is the document extractor's, the last
matching one. -/
theorem C6_classification_order_witness :
    (processAttachment c6Both).metadata = lastMatchMeta c6Both c6Evs ∧
    (processAttachment c6Both).processed = true ∧
    (processAttachment c6Both).error = none :=
  C6_classification_order c6Both c6Evs (fun _ => rfl) (by decide)

/-- Every character of every part of a split is a non-separator character of
the input. -/
theorem mem_of_mem_splitChar (sep : Char) (l : JStr) :
    ∀ part ∈ splitChar sep l, ∀ c ∈ part, c ∈ l := by
  induction l with
  | nil =>
    intro part hp c hc
    simp [splitChar] at hp
    subst hp
    simp at hc
  | cons a rest ih =>
    intro part hp c hc
    rw [splitChar] at hp
    rcases hsp : splitChar sep rest with _ | ⟨h0, t0⟩
    · rw [hsp] at hp
      simp at hp
      subst hp
      simp at hc
    · rw [hsp] at hp
      dsimp only at hp
      by_cases ha : a = sep
      · rw [if_pos ha] at hp
        rcases List.mem_cons.mp hp with h1 | h2
        · subst h1
          simp at hc
        · exact List.mem_cons_of_mem a (ih part (hsp ▸ h2) c hc)
      · rw [if_neg ha] at hp
        rcases List.mem_cons.mp hp with h1 | h2
        · subst h1
          rcases List.mem_cons.mp hc with h3 | h4
          · exact h3 ▸ List.mem_cons_self a rest
          · exact List.mem_cons_of_mem a
              (ih h0 (hsp ▸ List.mem_cons_self h0 t0) c h4)
        · exact List.mem_cons_of_mem a
            (ih part (hsp ▸ List.mem_cons_of_mem h0 h2) c hc)

/-- A line that trims to nothing leaves the calendar scanner state unchanged. -/
theorem icsLineStep_ws (st : AttachmentProcessor.ICSState) (line : JStr)
    (h : trimList line = []) : icsLineStep st line = st := by
  unfold icsLineStep
  rw [h]
  rw [if_neg (by decide), if_neg (by decide), if_neg (by simp)]

/-- Folding the calendar scanner over whitespace-only lines is the identity. -/
theorem icsFold_ws_id (lines : List JStr) :
    ∀ st : AttachmentProcessor.ICSState, (∀ l ∈ lines, trimList l = []) →
      lines.foldl icsLineStep st = st := by
  induction lines with
  | nil => intro st _; rfl
  | cons l rest ih =>
    intro st hws
    rw [List.foldl_cons, icsLineStep_ws st l (hws l (List.mem_cons_self _ _))]
    exact ih st (fun x hx => hws x (List.mem_cons_of_mem _ hx))

/-- Whitespace-only calendar content parses to no events. -/
theorem parseICS_all_ws (content : JStr) (h : ∀ c ∈ content, wsChar c = true) :
    parseICSContent content = [] := by
  unfold parseICSContent
  rw [icsFold_ws_id _ _ (fun line hl => trimList_eq_nil_of_all_ws
    (fun c hc => h c (mem_of_mem_splitChar '\n' content line hl c hc)))]

/-- Concrete whitespace-content attachment classified as calendar by filename
and as document by content-type. -/
def c10Doc : Attachment := ⟨jstr "w.ics", jstr "text/plain", 1, [32], none, false⟩

/-- C10 counterexample: a calendar-classified attachment with non-empty,
whitespace-only content whose final metadata is not the empty calendar
record, because the later document classification test also matches and
overwrites it (processed and error behave as claimed). -/
theorem C10_counterexample :
    calMatchB c10Doc = true ∧ c10Doc.content ≠ [] ∧
    trimList (bufToJStr c10Doc.content) = [] ∧
    (processAttachment c10Doc).processed = true ∧
    (processAttachment c10Doc).error = none ∧
    (processAttachment c10Doc).metadata ≠ AttachMeta.calendar [] := by decide

/-- C10 (amended): for every calendar-classified attachment whose content is
non-empty but consists only of whitespace, `processAttachment` returns
`processed` true with no error, because the corrupted-ICS check compares the
trimmed content length against zero rather than the raw content length; when
no later classification test (image, document, archive) also matches, the
metadata is the calendar record with an empty events list. -/
theorem C10_whitespace_ics (a : Attachment)
    (hcal : calMatchB a = true)
    (_hne : a.content ≠ [])
    (hws : trimList (bufToJStr a.content) = []) :
    (processAttachment a).processed = true ∧
    (processAttachment a).error = none ∧
    (imgMatchB a = false → docMatchB a = false → arcMatchB a = false →
      (processAttachment a).metadata = AttachMeta.calendar []) := by
  have hparse : parseICSContent (bufToJStr a.content) = [] :=
    parseICS_all_ws _ (trimList_eq_nil_all_ws hws)
  have hok : processICSFile a = .ok [] := by
    simp [processICSFile, hparse, hws]
  cases himg : imgMatchB a <;> cases hdoc : docMatchB a <;> cases harc : arcMatchB a <;>
    simp [processAttachment, hcal, hok, himg, hdoc, harc, Except.map]

/-- Concrete whitespace-content calendar attachment for the C10 witness. -/
def c10Cal : Attachment := ⟨jstr "w.ics", jstr "text/calendar", 3, [32, 10, 9], none, false⟩

/-- C10 witness: the amended theorem evaluated on a concrete whitespace-only
calendar attachment. -/
theorem C10_whitespace_ics_witness :
    (processAttachment c10Cal).processed = true ∧
    (processAttachment c10Cal).error = none ∧
    (processAttachment c10Cal).metadata = AttachMeta.calendar [] :=
  ⟨(C10_whitespace_ics c10Cal (by decide) (by decide) (by decide)).1,
   (C10_whitespace_ics c10Cal (by decide) (by decide) (by decide)).2.1,
   (C10_whitespace_ics c10Cal (by decide) (by decide) (by decide)).2.2
     (by decide) (by decide) (by decide)⟩

/-- The line list of one well-formed VEVENT block with the given field lines. -/
def blockLines (fields : List JStr) : List JStr :=
  jstr "BEGIN:VEVENT" :: fields ++ [jstr "END:VEVENT"]

/-- The effect of one in-block line on the current event: key/value lines
assign through `icsAssign`, others are skipped. -/
def fieldStep (e : ICSEvent) (line : JStr) : ICSEvent :=
  let t := trimList line
  if t.contains ':' then icsAssign e t else e

/-- The event record the scanner accumulates over one block's field lines. -/
def interpretBlock (fields : List JStr) : ICSEvent := fields.foldl fieldStep {}

/-- Well-formedness of a block's field lines: none of them trims to one of
the VEVENT delimiters. -/
def wfFields (fields : List JStr) : Prop :=
  ∀ l ∈ fields, trimList l ≠ jstr "BEGIN:VEVENT" ∧ trimList l ≠ jstr "END:VEVENT"

/-- Inside a block, the scanner only folds `fieldStep` over the current
event. -/
theorem icsFold_block (fields : List JStr) :
    ∀ (evs : List ICSEvent) (cur : ICSEvent), wfFields fields →
      fields.foldl icsLineStep ⟨evs, cur, true⟩
        = ⟨evs, fields.foldl fieldStep cur, true⟩ := by
  induction fields with
  | nil => intro evs cur _; rfl
  | cons l rest ih =>
    intro evs cur hwf
    have h1 := hwf l (List.mem_cons_self _ _)
    have hstep : icsLineStep ⟨evs, cur, true⟩ l = ⟨evs, fieldStep cur l, true⟩ := by
      unfold icsLineStep fieldStep
      rw [if_neg h1.1, if_neg h1.2]
      simp only [Bool.true_and]
      split <;> rfl
    rw [List.foldl_cons, List.foldl_cons, hstep]
    exact ih _ _ (fun x hx => hwf x (List.mem_cons_of_mem _ hx))

/-- A `BEGIN:VEVENT` line opens a block and resets the current event. -/
theorem icsLineStep_begin (st : AttachmentProcessor.ICSState) :
    icsLineStep st (jstr "BEGIN:VEVENT") = ⟨st.events, {}, true⟩ := by
  unfold icsLineStep
  rw [show trimList (jstr "BEGIN:VEVENT") = jstr "BEGIN:VEVENT" from by decide]
  rw [if_pos rfl]

/-- An `END:VEVENT` line inside a block pushes the current event. -/
theorem icsLineStep_end (evs : List ICSEvent) (cur : ICSEvent) :
    icsLineStep ⟨evs, cur, true⟩ (jstr "END:VEVENT")
      = ⟨evs ++ [cur], cur, false⟩ := by
  unfold icsLineStep
  rw [show trimList (jstr "END:VEVENT") = jstr "END:VEVENT" from by decide]
  rw [if_neg (by decide), if_pos rfl]
  rfl

/-- Scanning a sequence of well-formed VEVENT blocks from a closed state
appends exactly one interpreted event per block. -/
theorem icsFold_blocks (blocks : List (List JStr)) :
    ∀ (evs : List ICSEvent) (cur : ICSEvent), (∀ b ∈ blocks, wfFields b) →
      ∃ cur2, ((blocks.map blockLines).flatten).foldl icsLineStep ⟨evs, cur, false⟩
        = ⟨evs ++ blocks.map interpretBlock, cur2, false⟩ := by
  induction blocks with
  | nil => intro evs cur _; exact ⟨cur, by simp⟩
  | cons b bs ih =>
    intro evs cur hwf
    rw [List.map_cons, List.flatten_cons, List.foldl_append]
    have hblock : (blockLines b).foldl icsLineStep ⟨evs, cur, false⟩
        = ⟨evs ++ [interpretBlock b], interpretBlock b, false⟩ := by
      simp only [blockLines, List.cons_append]
      rw [List.foldl_cons, icsLineStep_begin]
      dsimp only
      have hb := icsFold_block b evs {} (hwf b (List.mem_cons_self _ _))
      rw [List.foldl_append, hb]
      rw [List.foldl_cons, icsLineStep_end, List.foldl_nil]
      rfl
    rw [hblock]
    obtain ⟨cur2, hrec⟩ := ih (evs ++ [interpretBlock b]) (interpretBlock b)
      (fun x hx => hwf x (List.mem_cons_of_mem _ hx))
    refine ⟨cur2, ?_⟩
    rw [hrec]
    simp

/-- All optional fields of an event carry nonempty values. -/
def eventValsNonempty (e : ICSEvent) : Prop :=
  (∀ v, e.summary = some v → v ≠ []) ∧ (∀ v, e.start = some v → v ≠ []) ∧
  (∀ v, e.«end» = some v → v ≠ []) ∧ (∀ v, e.location = some v → v ≠ []) ∧
  (∀ v, e.description = some v → v ≠ [])

/-- The key/value assignment never stores an empty value. -/
theorem icsAssign_nonempty (e : ICSEvent) (t : JStr) (he : eventValsNonempty e) :
    eventValsNonempty (icsAssign e t) := by
  obtain ⟨h1, h2, h3, h4, h5⟩ := he
  unfold icsAssign
  dsimp only
  split
  · exact ⟨h1, h2, h3, h4, h5⟩
  next hnv =>
    split
    · exact ⟨fun v hv => (Option.some.inj hv) ▸ hnv, h2, h3, h4, h5⟩
    split
    · exact ⟨h1, fun v hv => (Option.some.inj hv) ▸ hnv, h3, h4, h5⟩
    split
    · exact ⟨h1, h2, fun v hv => (Option.some.inj hv) ▸ hnv, h4, h5⟩
    split
    · exact ⟨h1, h2, h3, fun v hv => (Option.some.inj hv) ▸ hnv, h5⟩
    split
    · exact ⟨h1, h2, h3, h4, fun v hv => (Option.some.inj hv) ▸ hnv⟩
    · exact ⟨h1, h2, h3, h4, h5⟩

/-- Folding the field assignments preserves nonempty values. -/
theorem foldl_fieldStep_nonempty (b : List JStr) :
    ∀ e, eventValsNonempty e → eventValsNonempty (b.foldl fieldStep e) := by
  induction b with
  | nil => intro e he; exact he
  | cons l rest ih =>
    intro e he
    rw [List.foldl_cons]
    apply ih
    unfold fieldStep
    dsimp only
    split
    · exact icsAssign_nonempty _ _ he
    · exact he

/-- The interpretation of any block stores only nonempty field values. -/
theorem interpretBlock_nonempty (b : List JStr) : eventValsNonempty (interpretBlock b) := by
  apply foldl_fieldStep_nonempty
  unfold eventValsNonempty
  refine ⟨?_, ?_, ?_, ?_, ?_⟩ <;> exact fun _ hv => nomatch hv

/-- The scanner on content whose lines decompose into well-formed blocks
yields exactly the interpreted blocks. -/
theorem parseICS_of_blocks (blocks : List (List JStr)) (hwf : ∀ b ∈ blocks, wfFields b)
    (s : JStr) (hs : splitChar '\n' s = (blocks.map blockLines).flatten) :
    parseICSContent s = blocks.map interpretBlock := by
  unfold parseICSContent
  rw [hs]
  obtain ⟨cur2, hB⟩ := icsFold_blocks blocks [] {} hwf
  rw [hB]
  simp

/-- C7 (amended): for a calendar-classified attachment, content whose trimmed
text is nonempty but yields zero VEVENT blocks produces an attachment-level
error (`processed` false, error recorded) and not a batch failure; content
consisting of N well-formed `BEGIN:VEVENT`/`END:VEVENT` blocks parses to
exactly N event records, each holding only fields with nonempty values
(empty values dropped). -/
theorem C7_calendar_extraction (content : JStr) (blocks : List (List JStr)) (a : Attachment)
    (hsplit : splitChar '\n' content = (blocks.map blockLines).flatten)
    (hwf : ∀ b ∈ blocks, wfFields b) :
    (parseICSContent content = blocks.map interpretBlock ∧
     (parseICSContent content).length = blocks.length ∧
     ∀ e ∈ parseICSContent content, eventValsNonempty e) ∧
    (calMatchB a = true → trimList (bufToJStr a.content) ≠ [] →
      parseICSContent (bufToJStr a.content) = [] →
      (processAttachment a).processed = false ∧
      (processAttachment a).error = some (jstr "Invalid or corrupted ICS file") ∧
      ∀ pre post, processAttachments (pre ++ a :: post)
        = processAttachments pre ++ processAttachment a :: processAttachments post) ∧
    (splitChar '\n' (bufToJStr a.content) = (blocks.map blockLines).flatten →
      blocks ≠ [] →
      processICSFile a = .ok ((blocks.map interpretBlock).map mapICSEvent) ∧
      ((blocks.map interpretBlock).map mapICSEvent).length = blocks.length) := by
  have hp1 := parseICS_of_blocks blocks hwf content hsplit
  refine ⟨⟨hp1, ?_, ?_⟩, ?_, ?_⟩
  · rw [hp1, List.length_map]
  · rw [hp1]
    intro e he
    obtain ⟨b, _, rfl⟩ := List.mem_map.mp he
    exact interpretBlock_nonempty b
  · intro hcal htr hzero
    have hics : processICSFile a = .error (jstr "Invalid or corrupted ICS file") := by
      simp [processICSFile, hzero, List.length_pos.mpr htr]
    refine ⟨?_, ?_, ?_⟩
    · simp [processAttachment, hcal, hics, Except.map]
    · simp [processAttachment, hcal, hics, Except.map]
    · intro pre post
      simp [processAttachments_eq_map]
  · intro hs hb
    have hp2 := parseICS_of_blocks blocks hwf (bufToJStr a.content) hs
    constructor
    · simp [processICSFile, hp2, List.length_eq_zero, hb]
    · rw [List.length_map, List.length_map]

/-- Well-formedness of field lines is decidable. -/
instance (fields : List JStr) : Decidable (wfFields fields) := by
  unfold wfFields
  infer_instance

/-- Concrete whitespace-only calendar attachment refuting C7 as stated. -/
def c7Ws : Attachment := ⟨jstr "c.ics", jstr "text/calendar", 2, [32, 32], none, false⟩

/-- C7 counterexample: a calendar-classified attachment with non-empty
content and zero VEVENT blocks that nevertheless processes without any
attachment-level error, because the corrupted-ICS check tests the trimmed
content. -/
theorem C7_counterexample :
    calMatchB c7Ws = true ∧ c7Ws.content ≠ [] ∧
    parseICSContent (bufToJStr c7Ws.content) = [] ∧
    (processAttachment c7Ws).processed = true ∧
    (processAttachment c7Ws).error = none := by decide

/-- Concrete two-block calendar text for the C7 witness. -/
def c7Content : JStr :=
  jstr "BEGIN:VEVENT\nSUMMARY:Standup\nDTSTART:20250101\nEND:VEVENT\nBEGIN:VEVENT\nLOCATION:HQ\nEND:VEVENT"

/-- The two field-line blocks of `c7Content`. -/
def c7Blocks : List (List JStr) :=
  [[jstr "SUMMARY:Standup", jstr "DTSTART:20250101"], [jstr "LOCATION:HQ"]]

/-- Concrete corrupt calendar attachment for the C7 witness. -/
def c7Bad : Attachment :=
  ⟨jstr "e.ics", jstr "text/calendar", 4, (jstr "junk").map Char.toNat, none, false⟩

/-- Concrete well-formed two-event calendar attachment for the C7 witness. -/
def c7Ok : Attachment :=
  ⟨jstr "ok.ics", jstr "text/calendar", 96, c7Content.map Char.toNat, none, false⟩

/-- C7 witness: the amended theorem evaluated on concrete two-block content,
a concrete corrupt attachment, and a concrete well-formed attachment. -/
theorem C7_calendar_extraction_witness :
    parseICSContent c7Content = c7Blocks.map interpretBlock ∧
    (parseICSContent c7Content).length = 2 ∧
    (processAttachment c7Bad).processed = false ∧
    (processAttachment c7Bad).error = some (jstr "Invalid or corrupted ICS file") ∧
    processICSFile c7Ok = .ok ((c7Blocks.map interpretBlock).map mapICSEvent) :=
  ⟨(C7_calendar_extraction c7Content c7Blocks c7Bad (by decide) (by decide)).1.1,
   ((C7_calendar_extraction c7Content c7Blocks c7Bad (by decide) (by decide)).1.2.1).trans
     (by decide),
   ((C7_calendar_extraction c7Content c7Blocks c7Bad (by decide) (by decide)).2.1
     (by decide) (by decide) (by decide)).1,
   ((C7_calendar_extraction c7Content c7Blocks c7Bad (by decide) (by decide)).2.1
     (by decide) (by decide) (by decide)).2.1,
   ((C7_calendar_extraction c7Content c7Blocks c7Ok (by decide) (by decide)).2.2
     (by decide) (by decide)).1⟩
